import Mathlib

/-
Verification development for the iptables-edit SSH service
(services/ssh-service.js).  The JavaScript service is shallowly embedded:
each parser and command builder becomes a total Lean function over lists
of characters and strings, JavaScript regular-expression matching is
modelled by explicit left-to-right scanners with the same maximal-munch
semantics, and the mutable connection map becomes explicit state passing.
-/

namespace IptablesEdit

/-! Character classes of the JavaScript regular expressions. -/

/-- The whitespace class of JavaScript (the class used by trim, by split
on a whitespace regex, and by the parsing regexes). -/
def jsWhitespace (c : Char) : Bool :=
  c == ' ' || c == '\t' || c == '\n' || c == '\r' ||
  c.toNat == 0x0B || c.toNat == 0x0C ||
  c.toNat == 0xA0 || c.toNat == 0x1680 ||
  (0x2000 ≤ c.toNat && c.toNat ≤ 0x200A) ||
  c.toNat == 0x2028 || c.toNat == 0x2029 ||
  c.toNat == 0x202F || c.toNat == 0x205F ||
  c.toNat == 0x3000 || c.toNat == 0xFEFF

/-- JavaScript line terminators, the characters the regex dot does not
match. -/
def jsLineTerm (c : Char) : Bool :=
  c == '\n' || c == '\r' || c.toNat == 0x2028 || c.toNat == 0x2029

/-- JavaScript string trim: removes whitespace from both ends. -/
def jsTrim (s : String) : String :=
  String.mk (((s.toList.dropWhile jsWhitespace).reverse.dropWhile jsWhitespace).reverse)

/-- Worker for splitting on runs of whitespace.  The state is the token
accumulated so far (in reverse), or none while inside a whitespace run. -/
def wsSplitGo : List Char → Option (List Char) → List String
  | [], some cur => [String.mk cur.reverse]
  | [], none => [""]
  | c :: cs, some cur =>
      if jsWhitespace c then String.mk cur.reverse :: wsSplitGo cs none
      else wsSplitGo cs (some (c :: cur))
  | c :: cs, none =>
      if jsWhitespace c then wsSplitGo cs none
      else wsSplitGo cs (some [c])

/-- JavaScript split on a one-or-more-whitespace regex: tokens are the
stretches between maximal whitespace runs, with an empty token at an end
that starts or finishes with whitespace, and a single empty token for the
empty string. -/
def jsSplitWs (s : String) : List String :=
  wsSplitGo s.toList (some [])

/-- Worker for splitting on newline characters. -/
def nlSplitGo : List Char → List Char → List String
  | [], cur => [String.mk cur.reverse]
  | c :: cs, cur =>
      if c = '\n' then String.mk cur.reverse :: nlSplitGo cs []
      else nlSplitGo cs (c :: cur)

/-- JavaScript split on the newline character: the empty string gives a
single empty line, a trailing newline gives a trailing empty line. -/
def jsSplitNl (s : String) : List String :=
  nlSplitGo s.toList []

/-- True when the string begins with a dash, as the JavaScript
startsWith check on a dash does (false for the empty string). -/
def startsWithDash (s : String) : Bool :=
  match s.toList with
  | '-' :: _ => true
  | _ => false

/-! Association lists with the update behaviour of JavaScript object
assignment and of the Map class: assigning an existing key replaces its
value in place, a new key is appended. -/

/-- Lookup of the first binding of a key. -/
def lookupAssoc {α : Type} : List (String × α) → String → Option α
  | [], _ => none
  | (k', v) :: rest, k => if k' = k then some v else lookupAssoc rest k

/-- Assignment: replace the first binding of the key in place, or append
a new binding at the end. -/
def setAssoc {α : Type} : List (String × α) → String → α → List (String × α)
  | [], k, v => [(k, v)]
  | (k', v') :: rest, k, v =>
      if k' = k then (k, v) :: rest else (k', v') :: setAssoc rest k v

/-- Deletion of the first binding of a key. -/
def removeAssoc {α : Type} : List (String × α) → String → List (String × α)
  | [], _ => []
  | (k', v) :: rest, k =>
      if k' = k then rest else (k', v) :: removeAssoc rest k

/-! The extra-field extractor parseExtraFields. -/

/-- Result record of parseExtraFields; a missing pattern leaves the field
unset. -/
structure ExtraFields where
  sourcePort : Option String
  destPort : Option String
  toDestIP : Option String
  toDestPort : Option String
  toDestination : Option String
deriving DecidableEq, Repr

/-- Attempt to match the source-port regex at the head of the list:
letters spt, a colon, then one or more digits (captured greedily). -/
def sptAt (l : List Char) : Option String :=
  match l with
  | 's' :: 'p' :: 't' :: ':' :: rest =>
      let d := rest.takeWhile Char.isDigit
      if d.isEmpty then none else some (String.mk d)
  | _ => none

/-- Leftmost match of the source-port regex. -/
def scanSpt : List Char → Option String
  | [] => none
  | c :: cs =>
      match sptAt (c :: cs) with
      | some r => some r
      | none => scanSpt cs

/-- Attempt to match the destination-port regex at the head of the list:
letters dpt, an optional s, a colon, digits, optionally a colon and more
digits for a range. -/
def dptAt (l : List Char) : Option String :=
  match l with
  | 'd' :: 'p' :: 't' :: rest0 =>
      let rest1 : Option (List Char) :=
        match rest0 with
        | 's' :: ':' :: r => some r
        | ':' :: r => some r
        | _ => none
      match rest1 with
      | none => none
      | some r =>
          let d1 := r.takeWhile Char.isDigit
          if d1.isEmpty then none
          else
            match r.dropWhile Char.isDigit with
            | ':' :: r2 =>
                let d2 := r2.takeWhile Char.isDigit
                if d2.isEmpty then some (String.mk d1)
                else some (String.mk (d1 ++ [':'] ++ d2))
            | _ => some (String.mk d1)
  | _ => none

/-- Leftmost match of the destination-port regex. -/
def scanDpt : List Char → Option String
  | [] => none
  | c :: cs =>
      match dptAt (c :: cs) with
      | some r => some r
      | none => scanDpt cs

/-- Attempt to match the NAT-destination regex at the head of the list:
letters to, a colon, then one or more digits or dots (the address),
optionally a colon, optionally digits (the port). -/
def natToAt (l : List Char) : Option (String × Option String) :=
  match l with
  | 't' :: 'o' :: ':' :: rest =>
      let cls := rest.takeWhile (fun c => c.isDigit || c == '.')
      if cls.isEmpty then none
      else
        match rest.dropWhile (fun c => c.isDigit || c == '.') with
        | ':' :: r2 =>
            let d := r2.takeWhile Char.isDigit
            if d.isEmpty then some (String.mk cls, none)
            else some (String.mk cls, some (String.mk d))
        | _ => some (String.mk cls, none)
  | _ => none

/-- Leftmost match of the NAT-destination regex. -/
def scanNatTo : List Char → Option (String × Option String)
  | [] => none
  | c :: cs =>
      match natToAt (c :: cs) with
      | some r => some r
      | none => scanNatTo cs

/-- parseExtraFields: pull the port and NAT sub-fields out of the raw
extra string of one listing-format rule.  An empty string short-circuits
(the falsiness test of the source); otherwise the three patterns are
scanned for independently. -/
def parseExtraFields (extraString : String) : ExtraFields :=
  if extraString = "" then
    ⟨none, none, none, none, none⟩
  else
    let spt := scanSpt extraString.toList
    let dpt := scanDpt extraString.toList
    match scanNatTo extraString.toList with
    | some (ip, some port) =>
        ⟨spt, dpt, some ip, some port, some (ip ++ ":" ++ port)⟩
    | some (ip, none) =>
        ⟨spt, dpt, some ip, none, some ip⟩
    | none =>
        ⟨spt, dpt, none, none, none⟩

/-! The rule-content tokenizer parseRuleContent. -/

/-- Parsed breakdown of the option string of one dump-format rule. -/
structure RuleParsed where
  protocol : Option String
  source : Option String
  destination : Option String
  sport : Option String
  dport : Option String
  target : Option String
  toDestination : Option String
  other : List String
deriving DecidableEq, Repr

/-- The all-unset initial breakdown. -/
def emptyRuleParsed : RuleParsed :=
  ⟨none, none, none, none, none, none, none, []⟩

/-- One left-to-right pass over the whitespace-split tokens.  A
recognized flag consumes the next token as its value (the value is unset
when the flag is the last token, mirroring an out-of-range array read);
an unrecognized token that begins with a dash goes to the other list,
paired with the following token when that token is nonempty and does not
itself begin with a dash; any remaining token is dropped. -/
def parseRuleTokens : List String → RuleParsed → RuleParsed
  | [], p => p
  | t :: ts, p =>
      if t = "-p" then
        match ts with
        | [] => { p with protocol := none }
        | v :: rest => parseRuleTokens rest { p with protocol := some v }
      else if t = "-s" then
        match ts with
        | [] => { p with source := none }
        | v :: rest => parseRuleTokens rest { p with source := some v }
      else if t = "-d" then
        match ts with
        | [] => { p with destination := none }
        | v :: rest => parseRuleTokens rest { p with destination := some v }
      else if t = "--sport" then
        match ts with
        | [] => { p with sport := none }
        | v :: rest => parseRuleTokens rest { p with sport := some v }
      else if t = "--dport" then
        match ts with
        | [] => { p with dport := none }
        | v :: rest => parseRuleTokens rest { p with dport := some v }
      else if t = "-j" then
        match ts with
        | [] => { p with target := none }
        | v :: rest => parseRuleTokens rest { p with target := some v }
      else if t = "--to-destination" then
        match ts with
        | [] => { p with toDestination := none }
        | v :: rest => parseRuleTokens rest { p with toDestination := some v }
      else if startsWithDash t then
        match ts with
        | [] => { p with other := p.other ++ [t] }
        | v :: rest =>
            if v ≠ "" && !(startsWithDash v) then
              parseRuleTokens rest { p with other := p.other ++ [t ++ " " ++ v] }
            else
              parseRuleTokens (v :: rest) { p with other := p.other ++ [t] }
      else
        parseRuleTokens ts p

/-- parseRuleContent: split the option string on whitespace and run the
token pass. -/
def parseRuleContent (content : String) : RuleParsed :=
  parseRuleTokens (jsSplitWs content) emptyRuleParsed

/-! The listing parser parseIptablesOutput. -/

/-- One rule of the listing format, with the fixed columns and the
derived sub-fields of the extra column. -/
structure LRule where
  num : String
  target : String
  prot : String
  opt : String
  source : String
  destination : String
  extra : String
  sourcePort : Option String
  destPort : Option String
  toDestIP : Option String
  toDestPort : Option String
  toDestination : Option String
deriving DecidableEq, Repr

/-- One chain of the listing format. -/
structure LChain where
  chain : String
  rules : List LRule
deriving DecidableEq, Repr

/-- Scan state of the listing parser. -/
structure LState where
  chains : List LChain
  currentChain : Option String
  rules : List LRule
deriving DecidableEq, Repr

/-- The startsWith test on the word Chain that selects the header branch. -/
def isChainHeader (l : List Char) : Bool :=
  match l with
  | 'C' :: 'h' :: 'a' :: 'i' :: 'n' :: _ => true
  | _ => false

/-- Attempt to match the chain-name regex at the head of the list: the
word Chain, a space, then one or more nonwhitespace characters (captured
greedily). -/
def chainNameAt (l : List Char) : Option String :=
  match l with
  | 'C' :: 'h' :: 'a' :: 'i' :: 'n' :: ' ' :: rest =>
      let t := rest.takeWhile (fun c => !jsWhitespace c)
      if t.isEmpty then none else some (String.mk t)
  | _ => none

/-- Leftmost match of the chain-name regex. -/
def findChainName : List Char → Option String
  | [] => none
  | c :: cs =>
      match chainNameAt (c :: cs) with
      | some r => some r
      | none => findChainName cs

/-- The anchored rule-line test: optional leading whitespace followed by
a digit. -/
def ruleLineTest (line : String) : Bool :=
  match line.toList.dropWhile jsWhitespace with
  | c :: _ => c.isDigit
  | [] => false

/-- Build the listing rule out of at least eight columns plus the joined
extra string. -/
def mkListingRule (parts : List String) : LRule :=
  let extraString := String.intercalate " " (parts.drop 8)
  let pe := parseExtraFields extraString
  { num := parts.getD 0 ""
    target := parts.getD 3 ""
    prot := parts.getD 4 ""
    opt := parts.getD 5 ""
    source := parts.getD 6 ""
    destination := parts.getD 7 ""
    extra := extraString
    sourcePort := pe.sourcePort
    destPort := pe.destPort
    toDestIP := pe.toDestIP
    toDestPort := pe.toDestPort
    toDestination := pe.toDestination }

/-- One line of the listing scan: a header line flushes the open chain
and opens a new one named by the chain-name regex (unset when the regex
fails); a line whose trimmed content starts with a digit is split on
whitespace and kept as a rule when it has at least eight columns; every
other line is ignored. -/
def lStep (st : LState) (line : String) : LState :=
  if isChainHeader line.toList then
    let flushed :=
      match st.currentChain with
      | some c => st.chains ++ [⟨c, st.rules⟩]
      | none => st.chains
    { chains := flushed, currentChain := findChainName line.toList, rules := [] }
  else if ruleLineTest line then
    let parts := jsSplitWs (jsTrim line)
    if 8 ≤ parts.length then
      { st with rules := st.rules ++ [mkListingRule parts] }
    else st
  else st

/-- Final flush of the listing scan. -/
def lFinish (st : LState) : List LChain :=
  match st.currentChain with
  | some c => st.chains ++ [⟨c, st.rules⟩]
  | none => st.chains

/-- The listing parser over a list of lines. -/
def parseLines (ls : List String) : List LChain :=
  lFinish (ls.foldl lStep ⟨[], none, []⟩)

/-- parseIptablesOutput: split on newlines and scan. -/
def parseIptablesOutput (output : String) : List LChain :=
  parseLines (jsSplitNl output)

/-- The name a line contributes to the chain list: the chain-name
extraction on header lines, nothing on other lines. -/
def headerName (line : String) : Option String :=
  if isChainHeader line.toList then findChainName line.toList else none

/-! The save-format parser parseIptablesSave. -/

/-- One rule of the dump format. -/
structure SRule where
  raw : String
  content : String
  parsed : RuleParsed
deriving DecidableEq, Repr

/-- One chain of the dump format, with its default policy. -/
structure SChain where
  chain : String
  policy : String
  rules : List SRule
deriving DecidableEq, Repr

/-- Scan state of the save-format parser. -/
structure SState where
  tables : List (String × List SChain)
  currentTable : Option String
  currentChains : List SChain
deriving DecidableEq, Repr

/-- First character is a star: a table header. -/
def startsStar (l : List Char) : Bool :=
  match l with
  | '*' :: _ => true
  | _ => false

/-- First character is a colon: a chain declaration. -/
def startsColon (l : List Char) : Bool :=
  match l with
  | ':' :: _ => true
  | _ => false

/-- The line begins with dash, letter A, space: a rule line. -/
def startsDashA (l : List Char) : Bool :=
  match l with
  | '-' :: 'A' :: ' ' :: _ => true
  | _ => false

/-- Attempt to match the chain-declaration regex at the head of the
list: a colon, a nonwhitespace run (the name), whitespace, a
nonwhitespace run (the policy). -/
def chainDeclAt (l : List Char) : Option (String × String) :=
  match l with
  | ':' :: rest =>
      let t1 := rest.takeWhile (fun c => !jsWhitespace c)
      if t1.isEmpty then none
      else
        let r1 := rest.dropWhile (fun c => !jsWhitespace c)
        let ws := r1.takeWhile jsWhitespace
        if ws.isEmpty then none
        else
          let r2 := r1.dropWhile jsWhitespace
          let t2 := r2.takeWhile (fun c => !jsWhitespace c)
          if t2.isEmpty then none else some (String.mk t1, String.mk t2)
  | _ => none

/-- Leftmost match of the chain-declaration regex. -/
def findChainDecl : List Char → Option (String × String)
  | [] => none
  | c :: cs =>
      match chainDeclAt (c :: cs) with
      | some r => some r
      | none => findChainDecl cs

/-- Attempt to match the append-rule regex at the head of the list:
dash, letter A, whitespace, a nonwhitespace run (the chain name),
whitespace, then the rest of the line up to a line terminator (the rule
content, possibly empty). -/
def ruleAddAt (l : List Char) : Option (String × String) :=
  match l with
  | '-' :: 'A' :: rest =>
      let ws1 := rest.takeWhile jsWhitespace
      if ws1.isEmpty then none
      else
        let r1 := rest.dropWhile jsWhitespace
        let t1 := r1.takeWhile (fun c => !jsWhitespace c)
        if t1.isEmpty then none
        else
          let r2 := r1.dropWhile (fun c => !jsWhitespace c)
          let ws2 := r2.takeWhile jsWhitespace
          if ws2.isEmpty then none
          else
            let r3 := r2.dropWhile jsWhitespace
            some (String.mk t1, String.mk (r3.takeWhile (fun c => !jsLineTerm c)))
  | _ => none

/-- Leftmost match of the append-rule regex. -/
def findRuleAdd : List Char → Option (String × String)
  | [] => none
  | c :: cs =>
      match ruleAddAt (c :: cs) with
      | some r => some r
      | none => findRuleAdd cs

/-- Append a rule to the rules of the first chain carrying the given
name, leaving the list unchanged when no chain matches (the silent drop
of the source). -/
def addToFirst : List SChain → String → SRule → List SChain
  | [], _, _ => []
  | c :: cs, name, r =>
      if c.chain = name then { c with rules := c.rules ++ [r] } :: cs
      else c :: addToFirst cs name r

/-- One line of the save-format scan: a star line flushes the open table
section into the map (the flush is guarded by truthiness, so an unset or
empty table name is discarded instead) and opens a new one; a colon line
whose declaration regex matches appends a fresh chain; a rule line whose
append regex matches is pushed onto the matching declared chain when
one exists; every other line is ignored. -/
def sStep (st : SState) (line : String) : SState :=
  if startsStar line.toList then
    let tables' :=
      match st.currentTable with
      | some t => if t = "" then st.tables else setAssoc st.tables t st.currentChains
      | none => st.tables
    { tables := tables', currentTable := some (String.mk (line.toList.drop 1)),
      currentChains := [] }
  else if startsColon line.toList then
    match findChainDecl line.toList with
    | some (name, pol) =>
        { st with currentChains := st.currentChains ++ [⟨name, pol, []⟩] }
    | none => st
  else if startsDashA line.toList then
    match findRuleAdd line.toList with
    | some (name, content) =>
        if 0 < st.currentChains.length then
          { st with currentChains :=
              addToFirst st.currentChains name ⟨line, content, parseRuleContent content⟩ }
        else st
    | none => st
  else st

/-- Final flush of the save-format scan, with the same truthiness guard:
an unset or empty open table name is discarded. -/
def sFinish (st : SState) : List (String × List SChain) :=
  match st.currentTable with
  | some t => if t = "" then st.tables else setAssoc st.tables t st.currentChains
  | none => st.tables

/-- The save-format parser over a list of lines. -/
def parseSaveLines (ls : List String) : List (String × List SChain) :=
  sFinish (ls.foldl sStep ⟨[], none, []⟩)

/-- parseIptablesSave: split on newlines and scan. -/
def parseIptablesSave (output : String) : List (String × List SChain) :=
  parseSaveLines (jsSplitNl output)

/-! Remote command construction.  Each service method assembles one
literal command string; the builders below are those template literals. -/

/-- The per-table listing command of listRules and listAllRules. -/
def listRulesCommand (table : String) : String :=
  "sudo iptables -t " ++ table ++ " -L -n -v --line-numbers"

/-- The dump command of getIptablesSave. -/
def dumpCommand : String := "sudo iptables-save"

/-- The save command of saveRules. -/
def saveCommand : String := "sudo iptables-save > /etc/iptables/rules.v4"

/-- The restore command of restoreRules. -/
def restoreCommand : String := "sudo iptables-restore < /etc/iptables/rules.v4"

/-- The table option of addRule and deleteRule: present with a trailing
space exactly when the table is not the default filter table. -/
def tableOptionFor (table : String) : String :=
  if table ≠ "filter" then "-t " ++ table ++ " " else ""

/-- The command assembled by addRule. -/
def addRuleCommand (rule table : String) : String :=
  "sudo iptables " ++ tableOptionFor table ++ rule

/-- The command assembled by deleteRule. -/
def deleteRuleCommand (chain : String) (ruleNumber : Nat) (table : String) : String :=
  "sudo iptables " ++ tableOptionFor table ++ "-D " ++ chain ++ " " ++ toString ruleNumber

/-! Command execution.  executeCommand looks the session up in the
connection map, rejects when no connection is registered, and otherwise
runs the command over the channel; a channel-level error or a nonzero
exit code rejects, exit code zero resolves with the standard output. -/

/-- The typed failures of executeCommand. -/
inductive SshError where
  | noActiveConnection
  | execFailed (msg : String)
  | commandFailed (code : Int) (stderr : String)
deriving DecidableEq, Repr

/-- What the remote side does with one command: fail to open the
channel, or finish with an exit code, standard output and standard
error. -/
inductive CmdOutcome where
  | execError (msg : String)
  | finished (code : Int) (stdout : String) (stderr : String)
deriving DecidableEq, Repr

/-- executeCommand over a connection map and a remote-behaviour oracle. -/
def executeCommand (conns : List (String × Nat)) (oracle : String → CmdOutcome)
    (sessionId command : String) : Except SshError String :=
  match lookupAssoc conns sessionId with
  | none => .error .noActiveConnection
  | some _ =>
      match oracle command with
      | .execError msg => .error (.execFailed msg)
      | .finished code stdout stderr =>
          if code ≠ 0 then .error (.commandFailed code stderr) else .ok stdout

/-- The four tables listAllRules iterates over, in source order. -/
def allTables : List String := ["filter", "nat", "raw", "mangle"]

/-- listAllRules: for each table, run the listing command and parse; a
failure for one table is caught, logged and turned into an empty list
for that table, leaving the other tables untouched. -/
def listAllRules (conns : List (String × Nat)) (oracle : String → CmdOutcome)
    (sessionId : String) : List (String × List LChain) :=
  allTables.map (fun table =>
    (table,
      match executeCommand conns oracle sessionId (listRulesCommand table) with
      | .ok output => parseIptablesOutput output
      | .error _ => []))

/-! Connection lifecycle.  The service holds a map from session id to
connection; connect registers a freshly readied client under the session
id, replacing any previous binding without ending it, and disconnect
ends and removes the registered client.  Connections are identified by
allocation number; a connection is live from the moment its ready event
fired until end is called on it. -/

/-- The externally visible lifecycle happenings: a connection attempt
that reaches ready, one that errors, and an explicit disconnect. -/
inductive RegEvent where
  | connectOk (sessionId : String)
  | connectErr (sessionId : String)
  | disconnect (sessionId : String)
deriving DecidableEq, Repr

/-- Registry state: the session-indexed connection map, the set of live
connections tagged with the session that opened them, and the next
allocation number. -/
structure RegState where
  connections : List (String × Nat)
  liveConns : List (Nat × String)
  nextId : Nat
deriving DecidableEq, Repr

/-- One lifecycle event.  On ready the new client is stored under the
session id (overwriting any previous binding; the previous client is
not ended and stays live).  On error nothing is registered.  On
disconnect the registered client, if any, is ended and removed. -/
def regStep (st : RegState) (e : RegEvent) : RegState :=
  match e with
  | .connectOk s =>
      { connections := setAssoc st.connections s st.nextId
        liveConns := st.liveConns ++ [(st.nextId, s)]
        nextId := st.nextId + 1 }
  | .connectErr _ => st
  | .disconnect s =>
      match lookupAssoc st.connections s with
      | some id =>
          { st with
              connections := removeAssoc st.connections s
              liveConns := st.liveConns.filter (fun p => p.1 ≠ id) }
      | none => st

/-- Run a sequence of lifecycle events from the empty registry. -/
def runEvents (evs : List RegEvent) : RegState :=
  evs.foldl regStep ⟨[], [], 0⟩

/-! Flush trace of the save-format scan: the same scan, but recording
every flushed table section in order instead of assigning it into the
map.  Relating the parser to this trace expresses which section a table
name ends up bound to. -/

/-- One line of the trace scan: like the parser step, except that a
table header appends the flushed section to the trace; the truthiness
guard drops unset or empty table names here as well. -/
def secStep (st : SState) (line : String) : SState :=
  if startsStar line.toList then
    { tables :=
        (match st.currentTable with
         | some t =>
             if t = "" then st.tables else st.tables ++ [(t, st.currentChains)]
         | none => st.tables)
      currentTable := some (String.mk (line.toList.drop 1))
      currentChains := [] }
  else sStep st line

/-- Final flush of the trace scan, with the truthiness guard. -/
def secFinish (st : SState) : List (String × List SChain) :=
  match st.currentTable with
  | some t => if t = "" then st.tables else st.tables ++ [(t, st.currentChains)]
  | none => st.tables

/-- The ordered trace of flushed table sections of a dump input. -/
def sections (output : String) : List (String × List SChain) :=
  secFinish ((jsSplitNl output).foldl secStep ⟨[], none, []⟩)

/-- Replay a list of flushes as map assignments. -/
def applySets (m : List (String × List SChain)) (l : List (String × List SChain)) :
    List (String × List SChain) :=
  l.foldl (fun acc p => setAssoc acc p.1 p.2) m

/-! Exception-instrumented variants of the two parsers.  Property reads
that the JavaScript engine would fault on when applied to a null or
undefined value (regex-result indexing, the found-chain object, the
lookahead token) go through a guard that returns an error; everything
else is unchanged.  Agreement with the plain parsers states that the
guards in the source cover every such read, so parsing never throws. -/

/-- Read a possibly absent value; absent is the JavaScript type fault. -/
def jsGet {α : Type} : Option α → Except String α
  | some v => .ok v
  | none => .error "TypeError"

/-- Instrumented token pass: the lookahead read of the token after an
unrecognized option happens only behind the truthiness guard. -/
def parseRuleTokensE : List String → RuleParsed → Except String RuleParsed
  | [], p => .ok p
  | t :: ts, p =>
      if t = "-p" then
        match ts with
        | [] => .ok { p with protocol := none }
        | v :: rest => parseRuleTokensE rest { p with protocol := some v }
      else if t = "-s" then
        match ts with
        | [] => .ok { p with source := none }
        | v :: rest => parseRuleTokensE rest { p with source := some v }
      else if t = "-d" then
        match ts with
        | [] => .ok { p with destination := none }
        | v :: rest => parseRuleTokensE rest { p with destination := some v }
      else if t = "--sport" then
        match ts with
        | [] => .ok { p with sport := none }
        | v :: rest => parseRuleTokensE rest { p with sport := some v }
      else if t = "--dport" then
        match ts with
        | [] => .ok { p with dport := none }
        | v :: rest => parseRuleTokensE rest { p with dport := some v }
      else if t = "-j" then
        match ts with
        | [] => .ok { p with target := none }
        | v :: rest => parseRuleTokensE rest { p with target := some v }
      else if t = "--to-destination" then
        match ts with
        | [] => .ok { p with toDestination := none }
        | v :: rest => parseRuleTokensE rest { p with toDestination := some v }
      else if startsWithDash t then
        match ts with
        | [] => .ok { p with other := p.other ++ [t] }
        | v :: rest =>
            if v ≠ "" then do
              let vv ← jsGet (some v)
              if !(startsWithDash vv) then
                parseRuleTokensE rest { p with other := p.other ++ [t ++ " " ++ vv] }
              else
                parseRuleTokensE (v :: rest) { p with other := p.other ++ [t] }
            else
              parseRuleTokensE (v :: rest) { p with other := p.other ++ [t] }
      else
        parseRuleTokensE ts p

/-- Instrumented listing step: the capture-group read happens behind the
match guard, the column reads behind the length guard. -/
def lStepE (st : LState) (line : String) : Except String LState :=
  if isChainHeader line.toList then do
    let m := findChainName line.toList
    let cc ←
      if m.isSome then do
        let v ← jsGet m
        pure (some v)
      else pure none
    .ok { chains :=
            (match st.currentChain with
             | some c => st.chains ++ [⟨c, st.rules⟩]
             | none => st.chains)
          currentChain := cc, rules := [] }
  else if ruleLineTest line then
    let parts := jsSplitWs (jsTrim line)
    if 8 ≤ parts.length then do
      let num ← jsGet parts[0]?
      let tgt ← jsGet parts[3]?
      let prot ← jsGet parts[4]?
      let opt ← jsGet parts[5]?
      let src ← jsGet parts[6]?
      let dst ← jsGet parts[7]?
      let extraString := String.intercalate " " (parts.drop 8)
      let pe := parseExtraFields extraString
      .ok { st with rules := st.rules ++
            [⟨num, tgt, prot, opt, src, dst, extraString, pe.sourcePort,
              pe.destPort, pe.toDestIP, pe.toDestPort, pe.toDestination⟩] }
    else .ok st
  else .ok st

/-- Instrumented save-format step: the capture-group reads happen behind
the match guards, the rule push behind the found-chain guard. -/
def sStepE (st : SState) (line : String) : Except String SState :=
  if startsStar line.toList then
    .ok { tables :=
            (match st.currentTable with
             | some t =>
                 if t = "" then st.tables
                 else setAssoc st.tables t st.currentChains
             | none => st.tables)
          currentTable := some (String.mk (line.toList.drop 1))
          currentChains := [] }
  else if startsColon line.toList then
    let m := findChainDecl line.toList
    if m.isSome then do
      let mv ← jsGet m
      .ok { st with currentChains := st.currentChains ++ [⟨mv.1, mv.2, []⟩] }
    else .ok st
  else if startsDashA line.toList then
    let m := findRuleAdd line.toList
    if m.isSome ∧ 0 < st.currentChains.length then do
      let mv ← jsGet m
      let fo := st.currentChains.find? (fun c => c.chain == mv.1)
      if fo.isSome then do
        let _ ← jsGet fo
        let pr ← parseRuleTokensE (jsSplitWs mv.2) emptyRuleParsed
        .ok { st with currentChains :=
                addToFirst st.currentChains mv.1 ⟨line, mv.2, pr⟩ }
      else .ok st
    else .ok st
  else .ok st

/-- Instrumented listing parser. -/
def parseIptablesOutputE (output : String) : Except String (List LChain) := do
  let st ← (jsSplitNl output).foldlM lStepE ⟨[], none, []⟩
  pure (lFinish st)

/-- Instrumented save-format parser. -/
def parseIptablesSaveE (output : String) : Except String (List (String × List SChain)) := do
  let st ← (jsSplitNl output).foldlM sStepE ⟨[], none, []⟩
  pure (sFinish st)

/-- The chain names an intermediate scan state will eventually emit from
what it has already consumed: the flushed chains plus the open one. -/
def chainNamesView (st : LState) : List String :=
  st.chains.map LChain.chain ++ st.currentChain.toList

/-- What one nonheader line does to the open chain list. -/
def ccUpd (cc : List SChain) (line : String) : List SChain :=
  if startsColon line.toList then
    match findChainDecl line.toList with
    | some (name, pol) => cc ++ [⟨name, pol, []⟩]
    | none => cc
  else if startsDashA line.toList then
    match findRuleAdd line.toList with
    | some (name, content) =>
        if 0 < cc.length then
          addToFirst cc name ⟨line, content, parseRuleContent content⟩
        else cc
    | none => cc
  else cc

/-- The registry invariant: the connection map has no duplicate session
keys, live connection numbers are pairwise distinct and below the
allocator, and every registered connection is live and owned by the
session it is registered under. -/
def RegInv (st : RegState) : Prop :=
  (st.connections.map Prod.fst).Nodup ∧
  (st.liveConns.map Prod.fst).Nodup ∧
  (∀ p ∈ st.liveConns, p.1 < st.nextId) ∧
  (∀ s id, lookupAssoc st.connections s = some id → (id, s) ∈ st.liveConns)

/-- A remote behaviour that fails exactly on the nat listing command. -/
def natFailOracle : String → CmdOutcome := fun cmd =>
  if cmd = listRulesCommand "nat" then .execError "boom"
  else .finished 0 "Chain INPUT (policy ACCEPT)" ""

/-! Lemmas about the association-list primitives. -/

theorem lookupAssoc_setAssoc {α : Type} (m : List (String × α)) (a : String) (v : α)
    (k : String) :
    lookupAssoc (setAssoc m a v) k = if a = k then some v else lookupAssoc m k := by
  induction m with
  | nil => by_cases h : a = k <;> simp [setAssoc, lookupAssoc, h]
  | cons p rest ih =>
      obtain ⟨b, w⟩ := p
      by_cases hba : b = a
      · subst hba
        by_cases hk : b = k <;> simp [setAssoc, lookupAssoc, hk]
      · by_cases hbk : b = k
        · have hak : ¬ a = k := fun h => hba (hbk.trans h.symm)
          have hka : ¬ k = a := fun h => hak h.symm
          simp [setAssoc, lookupAssoc, hba, hbk, hak, hka]
        · simp [setAssoc, lookupAssoc, hba, hbk, ih]

theorem lookupAssoc_eq_none {α : Type} (m : List (String × α)) (k : String)
    (h : k ∉ m.map Prod.fst) : lookupAssoc m k = none := by
  induction m with
  | nil => rfl
  | cons p rest ih =>
      simp only [List.map_cons, List.mem_cons] at h
      push_neg at h
      have hk : ¬ p.1 = k := fun he => h.1 he.symm
      cases p
      simpa [lookupAssoc, hk] using ih h.2

theorem mem_keys_removeAssoc {α : Type} (m : List (String × α)) (k x : String)
    (h : x ∈ (removeAssoc m k).map Prod.fst) : x ∈ m.map Prod.fst := by
  induction m with
  | nil => simp [removeAssoc] at h
  | cons p rest ih =>
      cases p with
      | mk a v =>
          by_cases hak : a = k
          · simp only [removeAssoc, if_pos hak] at h
            simp only [List.map_cons, List.mem_cons]
            exact Or.inr h
          · simp only [removeAssoc, if_neg hak, List.map_cons, List.mem_cons] at h ⊢
            rcases h with h | h
            · exact Or.inl h
            · exact Or.inr (ih h)

theorem nodup_keys_removeAssoc {α : Type} (m : List (String × α)) (k : String)
    (h : (m.map Prod.fst).Nodup) : ((removeAssoc m k).map Prod.fst).Nodup := by
  induction m with
  | nil => simp [removeAssoc]
  | cons p rest ih =>
      cases p with
      | mk a v =>
          simp only [List.map_cons, List.nodup_cons] at h
          by_cases hak : a = k
          · simpa [removeAssoc, hak] using h.2
          · simp only [removeAssoc, if_neg hak, List.map_cons, List.nodup_cons]
            exact ⟨fun hmem => h.1 (mem_keys_removeAssoc rest k a hmem), ih h.2⟩

theorem lookupAssoc_removeAssoc {α : Type} (m : List (String × α)) (k k' : String)
    (hn : (m.map Prod.fst).Nodup) :
    lookupAssoc (removeAssoc m k) k' = if k = k' then none else lookupAssoc m k' := by
  induction m with
  | nil => by_cases h : k = k' <;> simp [removeAssoc, lookupAssoc, h]
  | cons p rest ih =>
      cases p with
      | mk a v =>
          simp only [List.map_cons, List.nodup_cons] at hn
          by_cases hak : a = k
          · subst hak
            by_cases hk : a = k'
            · subst hk
              simp [removeAssoc, lookupAssoc, lookupAssoc_eq_none rest a hn.1]
            · simp [removeAssoc, lookupAssoc, hk]
          · by_cases hk : a = k'
            · subst hk
              have : ¬ k = a := fun h => hak h.symm
              simp [removeAssoc, hak, lookupAssoc, this]
            · simp [removeAssoc, hak, lookupAssoc, hk, ih hn.2]

theorem mem_keys_setAssoc {α : Type} (m : List (String × α)) (k : String) (v : α)
    (x : String) :
    x ∈ (setAssoc m k v).map Prod.fst ↔ x ∈ m.map Prod.fst ∨ x = k := by
  induction m with
  | nil => simp [setAssoc]
  | cons p rest ih =>
      cases p with
      | mk a w =>
          by_cases hak : a = k
          · subst hak
            simp [setAssoc]
            tauto
          · simp [setAssoc, hak, ih]
            tauto

theorem nodup_keys_setAssoc {α : Type} (m : List (String × α)) (k : String) (v : α)
    (h : (m.map Prod.fst).Nodup) : ((setAssoc m k v).map Prod.fst).Nodup := by
  induction m with
  | nil => simp [setAssoc]
  | cons p rest ih =>
      cases p with
      | mk a w =>
          simp only [List.map_cons, List.nodup_cons] at h
          by_cases hak : a = k
          · have hset : setAssoc ((a, w) :: rest) k v = (k, v) :: rest := by
              simp [setAssoc, hak]
            rw [hset]
            simp only [List.map_cons, List.nodup_cons]
            exact hak ▸ h
          · simp only [setAssoc, if_neg hak, List.map_cons, List.nodup_cons]
            refine ⟨fun hmem => ?_, ih h.2⟩
            rcases (mem_keys_setAssoc rest k v a).mp hmem with hm | hm
            · exact h.1 hm
            · exact hak hm

theorem nodup_keys_applySets (l m : List (String × List SChain))
    (h : (m.map Prod.fst).Nodup) : ((applySets m l).map Prod.fst).Nodup := by
  induction l generalizing m with
  | nil => simpa [applySets] using h
  | cons p rest ih =>
      simpa [applySets, List.foldl_cons] using
        ih (setAssoc m p.1 p.2) (nodup_keys_setAssoc m p.1 p.2 h)

theorem lookupAssoc_applySets (k : String) (l m : List (String × List SChain)) :
    lookupAssoc (applySets m l) k =
      match (l.filter (fun p => p.1 = k)).getLast? with
      | some p => some p.2
      | none => lookupAssoc m k := by
  induction l generalizing m with
  | nil => simp [applySets]
  | cons p rest ih =>
      have step : applySets m (p :: rest) = applySets (setAssoc m p.1 p.2) rest := by
        simp [applySets, List.foldl_cons]
      rw [step, ih]
      by_cases hp : p.1 = k
      · cases hfr : rest.filter (fun q => q.1 = k) with
        | nil =>
            simp [hfr, hp, List.filter_cons, lookupAssoc_setAssoc]
        | cons x xs =>
            simp only [List.filter_cons, hfr, decide_eq_true_eq, hp,
              eq_self_iff_true, if_true, List.getLast?_cons_cons]
            cases hgl : (x :: xs).getLast? with
            | some q => rfl
            | none => simp [List.getLast?_eq_none_iff] at hgl
      · cases hfr : rest.filter (fun q => q.1 = k) with
        | nil =>
            simp [hfr, List.filter_cons, hp, lookupAssoc_setAssoc]
        | cons x xs =>
            simp only [List.filter_cons, hfr, decide_eq_true_eq, if_neg hp]
            cases hgl : (x :: xs).getLast? with
            | some q => rfl
            | none => simp [List.getLast?_eq_none_iff] at hgl

/-! Lemmas about the listing parser: chains come one-for-one, in order,
from the header lines whose name extraction succeeds. -/

theorem lStep_view (st : LState) (line : String) :
    chainNamesView (lStep st line) = chainNamesView st ++ (headerName line).toList := by
  by_cases h : isChainHeader line.toList
  · simp only [lStep, headerName, if_pos h]
    cases hcc : st.currentChain <;> cases hfn : findChainName line.toList <;>
      simp [chainNamesView, hcc, hfn]
  · simp only [lStep, headerName, if_neg h]
    by_cases h2 : ruleLineTest line
    · by_cases h3 : 8 ≤ (jsSplitWs (jsTrim line)).length <;>
        simp [h2, h3, chainNamesView]
    · simp [h2, chainNamesView]

theorem foldl_lStep_view (ls : List String) :
    ∀ st : LState, chainNamesView (ls.foldl lStep st) =
      chainNamesView st ++ ls.filterMap headerName := by
  induction ls with
  | nil => intro st; simp
  | cons l rest ih =>
      intro st
      rw [List.foldl_cons, ih, lStep_view]
      cases h : headerName l <;> simp [List.filterMap_cons, h]

theorem lFinish_names (st : LState) :
    (lFinish st).map LChain.chain = chainNamesView st := by
  unfold lFinish chainNamesView
  cases st.currentChain <;> simp

theorem parseLines_names (ls : List String) :
    (parseLines ls).map LChain.chain = ls.filterMap headerName := by
  unfold parseLines
  rw [lFinish_names, foldl_lStep_view]
  simp [chainNamesView]

theorem lStep_malformed (st : LState) (line : String)
    (h1 : isChainHeader line.toList = false) (h2 : ruleLineTest line = true)
    (h3 : (jsSplitWs (jsTrim line)).length < 8) : lStep st line = st := by
  have h3' : ¬ 8 ≤ (jsSplitWs (jsTrim line)).length := by omega
  have h1d : isChainHeader line.data = false := h1
  simp [lStep, h1, h1d, h2, h3']

theorem parseLines_drop_malformed (pre post : List String) (line : String)
    (h1 : isChainHeader line.toList = false) (h2 : ruleLineTest line = true)
    (h3 : (jsSplitWs (jsTrim line)).length < 8) :
    parseLines (pre ++ line :: post) = parseLines (pre ++ post) := by
  unfold parseLines
  rw [List.foldl_append, List.foldl_append, List.foldl_cons,
    lStep_malformed _ _ h1 h2 h3]

/-! Lemmas about the save-format parser. -/

theorem addToFirst_of_not_mem (l : List SChain) (name : String) (r : SRule)
    (h : name ∉ l.map SChain.chain) : addToFirst l name r = l := by
  induction l with
  | nil => rfl
  | cons c cs ih =>
      simp only [List.map_cons, List.mem_cons] at h
      push_neg at h
      have hc : ¬ c.chain = name := fun he => h.1 he.symm
      simp [addToFirst, hc, ih h.2]

theorem sStep_nonstar (st : SState) (line : String)
    (h : startsStar line.toList = false) :
    sStep st line = { st with currentChains := ccUpd st.currentChains line } := by
  unfold sStep ccUpd
  rw [if_neg (by simp only [Bool.not_eq_true]; exact h)]
  by_cases h2 : startsColon line.toList
  · rw [if_pos h2, if_pos h2]
    cases hd : findChainDecl line.toList with
    | none => rfl
    | some p => cases p; rfl
  · rw [if_neg h2, if_neg h2]
    by_cases h3 : startsDashA line.toList
    · rw [if_pos h3, if_pos h3]
      cases hd : findRuleAdd line.toList with
      | none => rfl
      | some p =>
          cases p with
          | mk name content =>
              by_cases h4 : 0 < st.currentChains.length
              · simp [h4]
              · simp [h4]
    · rw [if_neg h3, if_neg h3]

theorem startsDashA_shape (l : List Char) (h : startsDashA l = true) :
    ∃ r, l = '-' :: 'A' :: ' ' :: r := by
  unfold startsDashA at h
  split at h
  · next r => exact ⟨_, rfl⟩
  · exact absurd h (by simp)

theorem sStep_undeclared (st : SState) (line name content : String)
    (hA : startsDashA line.toList = true)
    (hm : findRuleAdd line.toList = some (name, content))
    (hnd : name ∉ st.currentChains.map SChain.chain) :
    sStep st line = st := by
  obtain ⟨r, hr⟩ := startsDashA_shape line.toList hA
  have hstar : startsStar line.toList = false := by rw [hr]; rfl
  have hcolon : startsColon line.toList = false := by rw [hr]; rfl
  rw [sStep_nonstar st line hstar]
  unfold ccUpd
  rw [if_neg (by simp only [Bool.not_eq_true]; exact hcolon), if_pos hA, hm]
  simp [addToFirst_of_not_mem st.currentChains name
    ⟨line, content, parseRuleContent content⟩ hnd]

/-! Simulation between the save-format parser and its flush trace. -/

theorem sStep_star (st : SState) (line : String)
    (h : startsStar line.toList = true) :
    sStep st line =
      { tables :=
          (match st.currentTable with
           | some t =>
               if t = "" then st.tables else setAssoc st.tables t st.currentChains
           | none => st.tables)
        currentTable := some (String.mk (line.toList.drop 1))
        currentChains := [] } := by
  unfold sStep
  rw [if_pos h]

theorem secStep_star (st : SState) (line : String)
    (h : startsStar line.toList = true) :
    secStep st line =
      { tables :=
          (match st.currentTable with
           | some t =>
               if t = "" then st.tables else st.tables ++ [(t, st.currentChains)]
           | none => st.tables)
        currentTable := some (String.mk (line.toList.drop 1))
        currentChains := [] } := by
  unfold secStep
  rw [if_pos h]

theorem secStep_nonstar (st : SState) (line : String)
    (h : startsStar line.toList = false) : secStep st line = sStep st line := by
  unfold secStep
  rw [if_neg (by simp only [Bool.not_eq_true]; exact h)]

theorem sec_sim (ls : List String) :
    ∀ (a b : SState) (m : List (String × List SChain)),
      a.tables = applySets m b.tables → a.currentTable = b.currentTable →
      a.currentChains = b.currentChains →
      ((ls.foldl sStep a).tables = applySets m ((ls.foldl secStep b).tables) ∧
        (ls.foldl sStep a).currentTable = (ls.foldl secStep b).currentTable ∧
        (ls.foldl sStep a).currentChains = (ls.foldl secStep b).currentChains) := by
  induction ls with
  | nil => intro a b m h1 h2 h3; exact ⟨h1, h2, h3⟩
  | cons l rest ih =>
      intro a b m h1 h2 h3
      rw [List.foldl_cons, List.foldl_cons]
      by_cases hs : startsStar l.toList
      · rw [sStep_star a l hs, secStep_star b l hs]
        refine ih _ _ m ?_ ?_ ?_
        · cases hct : b.currentTable with
          | none =>
              have hct' : a.currentTable = none := h2.trans hct
              simpa [hct, hct'] using h1
          | some t =>
              have hct' : a.currentTable = some t := h2.trans hct
              by_cases ht : t = ""
              · simpa [hct, hct', ht] using h1
              · simp only [hct, hct', if_neg ht]
                rw [h1, h3]
                simp [applySets, List.foldl_append]
        · rfl
        · rfl
      · have hsf : startsStar l.toList = false := by simpa using hs
        rw [secStep_nonstar b l hsf, sStep_nonstar a l hsf, sStep_nonstar b l hsf]
        exact ih _ _ m (by simpa using h1) (by simpa using h2) (by simp [h3])

theorem finish_rel (a b : SState) (m : List (String × List SChain))
    (h1 : a.tables = applySets m b.tables) (h2 : a.currentTable = b.currentTable)
    (h3 : a.currentChains = b.currentChains) :
    sFinish a = applySets m (secFinish b) := by
  unfold sFinish secFinish
  cases hct : b.currentTable with
  | none =>
      have hct' := h2.trans hct
      simpa [hct'] using h1
  | some t =>
      have hct' := h2.trans hct
      by_cases ht : t = ""
      · simpa [hct', ht] using h1
      · simp only [hct', if_neg ht]
        rw [h1, h3]
        simp [applySets, List.foldl_append]

theorem parseSave_eq_applySets (output : String) :
    parseIptablesSave output = applySets [] (sections output) := by
  obtain ⟨h1, h2, h3⟩ :=
    sec_sim (jsSplitNl output) ⟨[], none, []⟩ ⟨[], none, []⟩ []
      (by simp [applySets]) rfl rfl
  exact finish_rel _ _ _ h1 h2 h3

/-! Lemmas about the connection registry. -/

theorem fst_nodup_inj {α β : Type} (l : List (α × β)) (h : (l.map Prod.fst).Nodup)
    {a : α} {b c : β} (hb : (a, b) ∈ l) (hc : (a, c) ∈ l) : b = c := by
  induction l with
  | nil => cases hb
  | cons p rest ih =>
      simp only [List.map_cons, List.nodup_cons] at h
      rcases List.mem_cons.mp hb with hb1 | hb1 <;> rcases List.mem_cons.mp hc with hc1 | hc1
      · simpa using hb1.trans hc1.symm
      · exfalso
        apply h.1
        have hma : a ∈ List.map Prod.fst rest := by
          simpa using List.mem_map_of_mem Prod.fst hc1
        rw [← hb1]
        simpa using hma
      · exfalso
        apply h.1
        have hma : a ∈ List.map Prod.fst rest := by
          simpa using List.mem_map_of_mem Prod.fst hb1
        rw [← hc1]
        simpa using hma
      · exact ih h.2 hb1 hc1

theorem regInv_step (st : RegState) (e : RegEvent) (h : RegInv st) :
    RegInv (regStep st e) := by
  obtain ⟨hck, hlk, hbd, hlu⟩ := h
  cases e with
  | connectErr s => exact ⟨hck, hlk, hbd, hlu⟩
  | connectOk s =>
      refine ⟨nodup_keys_setAssoc _ _ _ hck, ?_, ?_, ?_⟩
      · show ((st.liveConns ++ [(st.nextId, s)]).map Prod.fst).Nodup
        rw [List.map_append]
        refine List.Nodup.append hlk (by simp) ?_
        intro x hx hx2
        simp only [List.map_cons, List.map_nil, List.mem_singleton] at hx2
        subst hx2
        obtain ⟨p, hp, hfst⟩ := List.mem_map.mp hx
        have := hbd p hp
        omega
      · show ∀ p ∈ st.liveConns ++ [(st.nextId, s)], p.1 < st.nextId + 1
        intro p hp
        rcases List.mem_append.mp hp with hp1 | hp1
        · have := hbd p hp1
          omega
        · simp only [List.mem_singleton] at hp1
          rw [hp1]
          exact Nat.lt_succ_self _
      · show ∀ s' id, lookupAssoc (setAssoc st.connections s st.nextId) s' = some id →
            (id, s') ∈ st.liveConns ++ [(st.nextId, s)]
        intro s' id hlook
        rw [lookupAssoc_setAssoc] at hlook
        by_cases hss : s = s'
        · rw [if_pos hss] at hlook
          injection hlook with hid
          rw [← hid, ← hss]
          exact List.mem_append_right _ (by simp)
        · rw [if_neg hss] at hlook
          exact List.mem_append_left _ (hlu s' id hlook)
  | disconnect s =>
      cases hlook : lookupAssoc st.connections s with
      | none =>
          have hst : regStep st (.disconnect s) = st := by
            simp [regStep, hlook]
          rw [hst]
          exact ⟨hck, hlk, hbd, hlu⟩
      | some cid =>
          have hst : regStep st (.disconnect s) =
              { st with
                  connections := removeAssoc st.connections s
                  liveConns := st.liveConns.filter (fun p => p.1 ≠ cid) } := by
            simp [regStep, hlook]
          rw [hst]
          refine ⟨nodup_keys_removeAssoc _ _ hck, ?_, ?_, ?_⟩
          · show ((st.liveConns.filter (fun p => p.1 ≠ cid)).map Prod.fst).Nodup
            exact List.Nodup.sublist ((List.filter_sublist _).map Prod.fst) hlk
          · show ∀ p ∈ st.liveConns.filter (fun p => p.1 ≠ cid), p.1 < st.nextId
            intro p hp
            exact hbd p (List.mem_of_mem_filter hp)
          · show ∀ s' id, lookupAssoc (removeAssoc st.connections s) s' = some id →
                (id, s') ∈ st.liveConns.filter (fun p => p.1 ≠ cid)
            intro s' id hlook'
            rw [lookupAssoc_removeAssoc _ _ _ hck] at hlook'
            by_cases hss : s = s'
            · rw [if_pos hss] at hlook'
              cases hlook'
            · rw [if_neg hss] at hlook'
              have hmem := hlu s' id hlook'
              have hcidmem := hlu s cid hlook
              have hne : id ≠ cid := by
                intro he
                rw [he] at hmem
                exact hss (fst_nodup_inj st.liveConns hlk hcidmem hmem)
              exact List.mem_filter.mpr ⟨hmem, by simp [hne]⟩

theorem regInv_run (evs : List RegEvent) : RegInv (runEvents evs) := by
  unfold runEvents
  suffices h : ∀ (st : RegState), RegInv st → RegInv (evs.foldl regStep st) by
    refine h _ ⟨by simp, by simp, by simp, ?_⟩
    intro s id hl
    simp [lookupAssoc] at hl
  induction evs with
  | nil => intro st hst; exact hst
  | cons e rest ih => intro st hst; exact ih _ (regInv_step st e hst)

/-! Agreement of the instrumented parsers with the plain ones. -/

theorem getElem?_eq_some_getD (l : List String) (i : Nat) (h : i < l.length) :
    l[i]? = some (l.getD i "") := by
  rw [List.getElem?_eq_getElem h]
  congr 1
  rw [List.getD_eq_getElem?_getD, List.getElem?_eq_getElem h]
  rfl

theorem except_ok_bind {e a b : Type} (x : a) (f : a → Except e b) :
    (Except.ok x >>= f) = f x := rfl

theorem parseRuleTokensE_eq (ts : List String) (p : RuleParsed) :
    parseRuleTokensE ts p = .ok (parseRuleTokens ts p) := by
  induction ts, p using parseRuleTokens.induct <;>
    rw [parseRuleTokensE.eq_def, parseRuleTokens.eq_def] <;>
    first
      | (simp_all [jsGet, except_ok_bind]; done)
      | (rename_i v rest hcond ih
         by_cases hv : v = "" <;> simp_all [jsGet, except_ok_bind])

theorem lStepE_eq (st : LState) (line : String) :
    lStepE st line = .ok (lStep st line) := by
  by_cases h : isChainHeader line.toList
  · simp only [lStepE, lStep, if_pos h]
    cases hm : findChainName line.toList with
    | none => simp [hm, jsGet, except_ok_bind]
    | some v => simp [hm, jsGet, except_ok_bind]
  · by_cases h2 : ruleLineTest line
    · by_cases h3 : 8 ≤ (jsSplitWs (jsTrim line)).length
      · simp only [lStepE, lStep, if_neg h, if_pos h2, if_pos h3]
        rw [getElem?_eq_some_getD _ 0 (by omega), getElem?_eq_some_getD _ 3 (by omega),
          getElem?_eq_some_getD _ 4 (by omega), getElem?_eq_some_getD _ 5 (by omega),
          getElem?_eq_some_getD _ 6 (by omega), getElem?_eq_some_getD _ 7 (by omega)]
        simp [jsGet, mkListingRule, except_ok_bind]
      · simp only [lStepE, lStep, if_neg h, if_pos h2, if_neg h3]
    · simp only [lStepE, lStep, if_neg h, if_neg h2]

theorem addToFirst_of_find?_none (l : List SChain) (name : String) (r : SRule)
    (h : l.find? (fun c => c.chain == name) = none) : addToFirst l name r = l := by
  rw [List.find?_eq_none] at h
  refine addToFirst_of_not_mem l name r ?_
  intro hmem
  obtain ⟨c, hc, hname⟩ := List.mem_map.mp hmem
  exact (h c hc) (by simp [hname])

theorem sStepE_eq (st : SState) (line : String) :
    sStepE st line = .ok (sStep st line) := by
  by_cases h1 : startsStar line.toList
  · simp only [sStepE, sStep, if_pos h1]
  · by_cases h2 : startsColon line.toList
    · simp only [sStepE, sStep, if_neg h1, if_pos h2]
      cases hm : findChainDecl line.toList with
      | none => simp [hm, jsGet, except_ok_bind]
      | some mv => cases mv; simp [hm, jsGet, except_ok_bind]
    · by_cases h3 : startsDashA line.toList
      · simp only [sStepE, sStep, if_neg h1, if_neg h2, if_pos h3]
        cases hm : findRuleAdd line.toList with
        | none => simp [hm, jsGet, except_ok_bind]
        | some mv =>
            cases mv with
            | mk name content =>
                by_cases h4 : 0 < st.currentChains.length
                · rw [if_pos (⟨rfl, h4⟩ : (some (name, content)).isSome = true ∧
                    0 < st.currentChains.length)]
                  simp only [jsGet, except_ok_bind]
                  cases hfo : st.currentChains.find? (fun c => c.chain == name) with
                  | none =>
                      rw [if_neg (by simp), if_pos h4,
                        addToFirst_of_find?_none st.currentChains name
                          ⟨line, content, parseRuleContent content⟩ hfo]
                  | some c =>
                      rw [if_pos (by simp), if_pos h4]
                      simp [parseRuleTokensE_eq, parseRuleContent, except_ok_bind]
                · rw [if_neg (by simp [h4] :
                    ¬ ((some (name, content)).isSome = true ∧
                      0 < st.currentChains.length))]
                  simp [h4]
      · simp only [sStepE, sStep, if_neg h1, if_neg h2, if_neg h3]

theorem foldlM_eq_ok {sigma : Type} (f : sigma → String → sigma)
    (g : sigma → String → Except String sigma)
    (hfg : ∀ st l, g st l = .ok (f st l)) :
    ∀ (ls : List String) (st : sigma), ls.foldlM g st = .ok (ls.foldl f st) := by
  intro ls
  induction ls with
  | nil => intro st; rfl
  | cons l rest ih =>
      intro st
      rw [List.foldlM_cons, hfg]
      show (Except.ok (f st l) >>= fun s => rest.foldlM g s) = _
      rw [List.foldl_cons]
      calc (Except.ok (f st l) >>= fun s => rest.foldlM g s)
          = rest.foldlM g (f st l) := by rfl
        _ = .ok (rest.foldl f (f st l)) := ih (f st l)

theorem parseIptablesOutputE_eq (output : String) :
    parseIptablesOutputE output = .ok (parseIptablesOutput output) := by
  unfold parseIptablesOutputE parseIptablesOutput parseLines
  rw [foldlM_eq_ok lStep lStepE lStepE_eq]
  rfl

theorem parseIptablesSaveE_eq (output : String) :
    parseIptablesSaveE output = .ok (parseIptablesSave output) := by
  unfold parseIptablesSaveE parseIptablesSave parseSaveLines
  rw [foldlM_eq_ok sStep sStepE sStepE_eq]
  rfl

/-! The unrecognized-option entries always begin with a dash. -/

theorem startsWithDash_append (s t : String) (h : startsWithDash s = true) :
    startsWithDash (s ++ t) = true := by
  unfold startsWithDash at h ⊢
  split at h
  · next c l heq =>
      have : (s ++ t).toList = '-' :: (l ++ t.toList) := by
        show (s ++ t).data = _
        rw [String.data_append]
        show s.toList ++ t.data = _
        rw [heq]
        rfl
      rw [this]
      rfl
  · exact absurd h (by simp)

theorem parseRuleTokens_other_dash (ts : List String) (p : RuleParsed)
    (h : (p.other.all startsWithDash) = true) :
    ((parseRuleTokens ts p).other.all startsWithDash) = true := by
  induction ts, p using parseRuleTokens.induct <;>
    rw [parseRuleTokens.eq_def] <;>
    first
      | (simp_all [List.all_eq_true, startsWithDash_append]; done)
      | (rename_i v rest hcond ih
         by_cases hv : v = "" <;>
           simp_all [List.all_eq_true, startsWithDash_append])

example : parseRuleContent "-p tcp --dport 22 -j ACCEPT" =
    ⟨some "tcp", none, none, none, some "22", some "ACCEPT", none, []⟩ := by
  decide

example :
    parseIptablesOutput
      "Chain INPUT (policy ACCEPT)\nnum pkts bytes target prot opt source destination\n1 1234 5678 ACCEPT tcp -- 0.0.0.0/0 0.0.0.0/0 tcp dpt:80" =
    [⟨"INPUT",
      [⟨"1", "ACCEPT", "tcp", "--", "0.0.0.0/0", "0.0.0.0/0", "tcp dpt:80",
        none, some "80", none, none, none⟩]⟩] := by decide


/-! Claim theorems. -/

/-- C1: on the dump input made of the lines star-filter, the INPUT
ACCEPT chain declaration, the ssh accept rule and COMMIT, the
save-format parser returns exactly one table named filter holding
exactly one chain INPUT with policy ACCEPT and exactly one rule whose
content is the option string, parsed to protocol tcp, destination port
22, target ACCEPT, empty other list, every remaining field unset. -/
theorem C1_save_dump_example :
    parseIptablesSave
      "*filter\n:INPUT ACCEPT [0:0]\n-A INPUT -p tcp --dport 22 -j ACCEPT\nCOMMIT\n" =
    [("filter",
      [⟨"INPUT", "ACCEPT",
        [⟨"-A INPUT -p tcp --dport 22 -j ACCEPT", "-p tcp --dport 22 -j ACCEPT",
          ⟨some "tcp", none, none, none, some "22", some "ACCEPT", none, []⟩⟩]⟩])] := by
  decide

/-- C2: the extra-field extractor yields destination port 19070 and NAT
destination 192.168.127.70 port 9001 on the first sample, the verbatim
range 5000:6000 with no NAT fields on the second, and all fields unset
on the empty string. -/
theorem C2_extra_field_samples :
    parseExtraFields "tcp dpt:19070 to:192.168.127.70:9001" =
      ⟨none, some "19070", some "192.168.127.70", some "9001",
        some "192.168.127.70:9001"⟩ ∧
    parseExtraFields "udp dpts:5000:6000" =
      ⟨none, some "5000:6000", none, none, none⟩ ∧
    parseExtraFields "" = ⟨none, none, none, none, none⟩ := by
  decide

/-- C3: the listing parser returns exactly one chain, in encounter
order, per header line whose name extraction succeeds (the chain-name
list is the filter-map of the extraction over the input lines, so the
chain count equals the count of well-formed headers), and a rule line
with fewer than eight whitespace-separated columns is discarded without
any effect on the output. -/
theorem C3_listing_chain_headers :
    (∀ output : String,
      (parseIptablesOutput output).map LChain.chain =
        (jsSplitNl output).filterMap headerName ∧
      (parseIptablesOutput output).length =
        ((jsSplitNl output).filterMap headerName).length) ∧
    (∀ (pre post : List String) (line : String),
      isChainHeader line.toList = false → ruleLineTest line = true →
      (jsSplitWs (jsTrim line)).length < 8 →
      parseLines (pre ++ line :: post) = parseLines (pre ++ post)) := by
  constructor
  · intro output
    have h := parseLines_names (jsSplitNl output)
    refine ⟨h, ?_⟩
    rw [← h, List.length_map]
    rfl
  · exact parseLines_drop_malformed

/-- Witness for C3 at a concrete listing and a concrete malformed rule
line. -/
theorem C3_listing_chain_headers_witness :
    ((parseIptablesOutput "Chain INPUT (policy ACCEPT)\n1 2 3").map LChain.chain =
      (jsSplitNl "Chain INPUT (policy ACCEPT)\n1 2 3").filterMap headerName) ∧
    parseLines (["Chain INPUT (policy ACCEPT)"] ++
        "1 2 3" :: ["Chain FORWARD (policy DROP)"]) =
      parseLines (["Chain INPUT (policy ACCEPT)"] ++ ["Chain FORWARD (policy DROP)"]) :=
  ⟨(C3_listing_chain_headers.1 "Chain INPUT (policy ACCEPT)\n1 2 3").1,
   C3_listing_chain_headers.2 ["Chain INPUT (policy ACCEPT)"]
     ["Chain FORWARD (policy DROP)"] "1 2 3" (by decide) (by decide) (by decide)⟩

/-- C4: each operation sends its literal command template: the listing
command always carries the table option, the dump, save and restore
commands are fixed strings, and addRule and deleteRule prefix the table
option exactly when the table is not filter. -/
theorem C4_command_templates (table rule chain : String) (ruleNumber : Nat) :
    listRulesCommand table =
      "sudo iptables -t " ++ table ++ " -L -n -v --line-numbers" ∧
    dumpCommand = "sudo iptables-save" ∧
    saveCommand = "sudo iptables-save > /etc/iptables/rules.v4" ∧
    restoreCommand = "sudo iptables-restore < /etc/iptables/rules.v4" ∧
    (table ≠ "filter" →
      addRuleCommand rule table =
        "sudo iptables -t " ++ table ++ " " ++ rule ∧
      deleteRuleCommand chain ruleNumber table =
        "sudo iptables -t " ++ table ++ " -D " ++ chain ++ " " ++
          toString ruleNumber) ∧
    (table = "filter" →
      addRuleCommand rule table = "sudo iptables " ++ rule ∧
      deleteRuleCommand chain ruleNumber table =
        "sudo iptables -D " ++ chain ++ " " ++ toString ruleNumber) := by
  refine ⟨rfl, rfl, rfl, rfl, ?_, ?_⟩
  · intro h
    constructor
    · simp only [addRuleCommand, tableOptionFor, if_pos h, String.append_assoc]
      rw [← String.append_assoc]
      rfl
    · simp only [deleteRuleCommand, tableOptionFor, if_pos h, String.append_assoc]
      rw [← String.append_assoc]
      rfl
  · intro h
    exact ⟨by simp [addRuleCommand, tableOptionFor, h],
           by simp [deleteRuleCommand, tableOptionFor, h, String.append_assoc]⟩

/-- Witness for C4 at the nat table (option present) and the filter
table (option omitted). -/
theorem C4_command_templates_witness :
    addRuleCommand "-A POSTROUTING -j MASQUERADE" "nat" =
      "sudo iptables -t " ++ "nat" ++ " " ++ "-A POSTROUTING -j MASQUERADE" ∧
    deleteRuleCommand "INPUT" 3 "filter" =
      "sudo iptables -D " ++ "INPUT" ++ " " ++ toString 3 :=
  ⟨((C4_command_templates "nat" "-A POSTROUTING -j MASQUERADE" "INPUT" 3).2.2.2.2.1
      (by decide)).1,
   ((C4_command_templates "filter" "-A POSTROUTING -j MASQUERADE" "INPUT" 3).2.2.2.2.2
      rfl).2⟩

/-- C5: when the listing command for any one of the four tables fails
while the other three succeed, listAllRules still returns all four
table keys in order, the failing table bound to the empty list and each
succeeding table bound to the parse of its command output; the
per-table failure never escapes to the caller. -/
theorem C5_partial_failure (conns : List (String × Nat))
    (oracle : String → CmdOutcome) (sessionId : String)
    (bad : String) (out : String → String) (e : SshError)
    (hmem : bad ∈ allTables)
    (hbad : executeCommand conns oracle sessionId (listRulesCommand bad) = .error e)
    (hok : ∀ t ∈ allTables, t ≠ bad →
      executeCommand conns oracle sessionId (listRulesCommand t) = .ok (out t)) :
    (listAllRules conns oracle sessionId).map Prod.fst =
      ["filter", "nat", "raw", "mangle"] ∧
    listAllRules conns oracle sessionId =
      allTables.map (fun t =>
        (t, if t = bad then [] else parseIptablesOutput (out t))) := by
  constructor
  · unfold listAllRules allTables
    simp
  · unfold listAllRules
    refine List.map_congr_left ?_
    intro t ht
    by_cases htb : t = bad
    · subst htb
      simp [hbad]
    · simp [hok t ht htb, htb]

/-- Witness for C5 at a concrete registry and a remote behaviour that
fails exactly on the nat listing command. -/
theorem C5_partial_failure_witness :
    (listAllRules [("session", 0)] natFailOracle "session").map Prod.fst =
      ["filter", "nat", "raw", "mangle"] ∧
    listAllRules [("session", 0)] natFailOracle "session" =
      allTables.map (fun t =>
        (t, if t = "nat" then []
            else parseIptablesOutput "Chain INPUT (policy ACCEPT)")) :=
  C5_partial_failure [("session", 0)] natFailOracle "session" "nat"
    (fun _ => "Chain INPUT (policy ACCEPT)") (.execFailed "boom")
    (by decide) rfl
    (by
      intro t ht hne
      simp only [allTables, List.mem_cons, List.not_mem_nil, or_false] at ht
      rcases ht with rfl | rfl | rfl | rfl
      · rfl
      · exact absurd rfl hne
      · rfl
      · rfl)

/-- C6 counterexample: re-opening an already-open session leaves two
live connections opened for that session; the map points at the new
one, yet the first connection was never ended and remains live. -/
theorem C6_reopen_leaves_two_live :
    ((runEvents [RegEvent.connectOk "alice", RegEvent.connectOk "alice"]).liveConns.filter
        (fun p => p.2 = "alice")).length = 2 ∧
    lookupAssoc (runEvents [RegEvent.connectOk "alice",
        RegEvent.connectOk "alice"]).connections "alice" = some 1 ∧
    (0, "alice") ∈ (runEvents [RegEvent.connectOk "alice",
        RegEvent.connectOk "alice"]).liveConns := by
  decide

/-- C6 amended: each session has at most one registered connection at
any time (the connection map has no duplicate session keys) and the
registered connection is live and owned by that session; but re-opening
does not close the previous connection, which stays live unregistered. -/
theorem C6_single_registered_connection (evs : List RegEvent) :
    ((runEvents evs).connections.map Prod.fst).Nodup ∧
    (∀ s id, lookupAssoc (runEvents evs).connections s = some id →
      (id, s) ∈ (runEvents evs).liveConns) := by
  obtain ⟨h1, _, _, h4⟩ := regInv_run evs
  exact ⟨h1, h4⟩

/-- Witness for the amended C6 on a concrete event sequence. -/
theorem C6_single_registered_connection_witness :
    (((runEvents [RegEvent.connectOk "alice"]).connections.map Prod.fst).Nodup) ∧
    (0, "alice") ∈ (runEvents [RegEvent.connectOk "alice"]).liveConns :=
  ⟨(C6_single_registered_connection [RegEvent.connectOk "alice"]).1,
   (C6_single_registered_connection [RegEvent.connectOk "alice"]).2 "alice" 0
     (by decide)⟩

/-- C7: an append line whose chain name was not declared by a prior
colon line of the current section is silently dropped: the whole parse
of the input with the line equals the parse without it. -/
theorem C7_undeclared_chain_dropped (pre post : List String)
    (line name content : String)
    (hA : startsDashA line.toList = true)
    (hm : findRuleAdd line.toList = some (name, content))
    (hnd : name ∉ ((pre.foldl sStep ⟨[], none, []⟩).currentChains.map SChain.chain)) :
    parseSaveLines (pre ++ line :: post) = parseSaveLines (pre ++ post) := by
  unfold parseSaveLines
  rw [List.foldl_append, List.foldl_append, List.foldl_cons,
    sStep_undeclared _ line name content hA hm hnd]

/-- Witness for C7: a FORWARD rule line inside a section that only
declared INPUT. -/
theorem C7_undeclared_chain_dropped_witness :
    parseSaveLines (["*filter", ":INPUT ACCEPT [0:0]"] ++
        "-A FORWARD -j DROP" :: ["COMMIT"]) =
      parseSaveLines (["*filter", ":INPUT ACCEPT [0:0]"] ++ ["COMMIT"]) :=
  C7_undeclared_chain_dropped ["*filter", ":INPUT ACCEPT [0:0]"] ["COMMIT"]
    "-A FORWARD -j DROP" "FORWARD" "-j DROP" (by decide) (by decide) (by decide)

/-- C8: on every input string both parsers agree with their
exception-instrumented variants, in which every property read that the
engine would fault on is guarded, so parsing always returns a structure
and never throws; on empty input both return the empty structure. -/
theorem C8_parsers_never_throw (s : String) :
    parseIptablesOutputE s = Except.ok (parseIptablesOutput s) ∧
    parseIptablesSaveE s = Except.ok (parseIptablesSave s) ∧
    parseIptablesOutput "" = [] ∧
    parseIptablesSave "" = [] :=
  ⟨parseIptablesOutputE_eq s, parseIptablesSaveE_eq s, by decide, by decide⟩

/-- C9: every entry of the other list begins with a dash, so a token
that neither begins with a dash nor sits in a value position appears in
no field at all; in particular on the input with a missing protocol
value the protocol captures the following flag, the target stays unset
and the orphaned ACCEPT token is dropped everywhere. -/
theorem C9_nonflag_tokens_dropped :
    (∀ content : String,
      ((parseRuleContent content).other.all startsWithDash) = true) ∧
    parseRuleContent "-p -j ACCEPT" =
      ⟨some "-j", none, none, none, none, none, none, []⟩ := by
  constructor
  · intro content
    exact parseRuleTokens_other_dash (jsSplitWs content) emptyRuleParsed (by decide)
  · decide

/-- C10: the save-format parser binds every table name to the last
flushed section carrying that name (the map lookup equals the last
matching entry of the section trace) and the returned map has no
duplicate table keys, so the chains of an earlier same-named section
are absent from the output. -/
theorem C10_duplicate_table_last_wins (output : String) (t : String) :
    lookupAssoc (parseIptablesSave output) t =
      (((sections output).filter (fun p => p.1 = t)).getLast?).map Prod.snd ∧
    ((parseIptablesSave output).map Prod.fst).Nodup := by
  constructor
  · rw [parseSave_eq_applySets, lookupAssoc_applySets]
    cases hgl : ((sections output).filter (fun p => p.1 = t)).getLast? with
    | none => simp [lookupAssoc]
    | some p => simp
  · rw [parseSave_eq_applySets]
    exact nodup_keys_applySets _ _ (by simp)

end IptablesEdit
